import Mathlib

/-
Verification of the obsidian-helix key-suppression interceptor and
extension lifecycle (src/main.ts), as a shallow embedding in Lean 4.

The DOM keyboard event, the editor view's scroll DOM class list, and the
host effects (persistence, workspace re-render, notices) are modelled
explicitly; the decision functions are direct translations of the
TypeScript source.
-/

namespace Helix

/-- A DOM keyboard event, restricted to the fields the source inspects:
`event.key`, `event.ctrlKey`, `event.metaKey`, `event.altKey`. -/
structure KeyEvent where
  key : String
  ctrlKey : Bool
  metaKey : Bool
  altKey : Bool
deriving DecidableEq, Repr

/-- Translation of `UNHANDLED_KEYS` (src/main.ts lines 10-13): keys Helix
leaves unhandled in Normal/Select mode. -/
def UNHANDLED_KEYS : List String := ["Backspace", "Enter"]

/-- One entry of the combo table: a key plus optional required modifiers
(`undefined` in TypeScript is `none` here). -/
structure Combo where
  key : String
  ctrl : Option Bool
  meta : Option Bool
  alt : Option Bool
deriving DecidableEq, Repr

/-- Translation of `UNHANDLED_COMBOS` (src/main.ts lines 17-19): only
the entry for Ctrl+Z. -/
def UNHANDLED_COMBOS : List Combo := [⟨"z", some true, none, none⟩]

/-- Translation of `isUnhandledCombo` (src/main.ts lines 21-28). -/
def isUnhandledCombo (event : KeyEvent) : Bool :=
  UNHANDLED_COMBOS.any fun combo =>
    event.key == combo.key &&
    (combo.ctrl == none || some event.ctrlKey == combo.ctrl) &&
    (combo.meta == none || some event.metaKey == combo.meta) &&
    (combo.alt == none || some event.altKey == combo.alt)

/-- The slice of an `EditorView` the keydown handler reads: the class list
of its `scrollDOM` element. -/
structure EditorView where
  scrollDOMClasses : List String
deriving DecidableEq, Repr

/-- DOM side effects the keydown handler can perform on the event. -/
inductive DomEffect
  | preventDefault
  | stopPropagation
deriving DecidableEq, Repr

/-- Translation of the keydown handler registered via
`EditorView.domEventHandlers` (src/main.ts lines 75-86). Returns the
handler's boolean result together with the ordered list of DOM side
effects it performed on the event. -/
def keydown (event : KeyEvent) (view : EditorView) : Bool × List DomEffect :=
  let isNormalOrSelect := view.scrollDOMClasses.contains "cm-hx-block-cursor"
  if !isNormalOrSelect then (false, [])
  else if UNHANDLED_KEYS.contains event.key || isUnhandledCombo event then
    (true, [DomEffect.preventDefault, DomEffect.stopPropagation])
  else
    (false, [])

/-- Modelled from the spec: `HelixSettings` is imported from `src/logic`,
which is not under src/. Per the spec it is a flat record with a boolean
enable flag and a cursor-style string field (the fields `main.ts` reads
are `enableHelixKeybindings` and `cursorInInsertMode`). -/
structure HelixSettings where
  enableHelixKeybindings : Bool
  cursorInInsertMode : String
deriving DecidableEq, Repr

/-- Modelled from the spec: `DEFAULT_SETTINGS` is imported from
`src/logic`, which is not under src/. Per the spec, default settings have
the enable flag false; the default cursor style is one of the dropdown's
two options (which one is not pinned by the spec, and no claim depends on
it). -/
def DEFAULT_SETTINGS : HelixSettings := ⟨false, "block"⟩

/-- The persisted record: a partial `HelixSettings` (each field possibly
missing), as produced by the host's key-value store. -/
structure StoredData where
  enableHelixKeybindings : Option Bool
  cursorInInsertMode : Option String
deriving DecidableEq, Repr

/-- Translation of `HelixPlugin.loadSettings` (src/main.ts lines 49-51):
`Object.assign({}, DEFAULT_SETTINGS, await this.loadData())` merges the
persisted record field-by-field over the defaults; `loadData` yields
`none` when nothing was persisted. -/
def loadSettings (data : Option StoredData) : HelixSettings :=
  match data with
  | none => DEFAULT_SETTINGS
  | some d =>
      ⟨d.enableHelixKeybindings.getD DEFAULT_SETTINGS.enableHelixKeybindings,
       d.cursorInInsertMode.getD DEFAULT_SETTINGS.cursorInInsertMode⟩

/-- Translation of `HelixPlugin.saveSettings` (src/main.ts lines 53-55):
`saveData(this.settings)` persists the full settings record. -/
def saveSettings (s : HelixSettings) : StoredData :=
  ⟨some s.enableHelixKeybindings, some s.cursorInInsertMode⟩

/-- The identity of an editor extension pushed by `setEnabled`. -/
inductive ExtensionCore
  | defaultEditorView
  | helixEngine (cursorShapeInsert : String)
  | suppressionInterceptor
deriving DecidableEq, Repr

/-- The CodeMirror precedence tier an extension is wrapped in. -/
inductive Prec
  | high
  | highest
deriving DecidableEq, Repr

/-- An extension as it sits in the plugin's `extensions` array: a core
behavior wrapped at a precedence tier. -/
structure Extension where
  prec : Prec
  core : ExtensionCore
deriving DecidableEq, Repr

/-- The list the three `push` calls of `setEnabled` build when `value` is
true (src/main.ts lines 61-88), empty otherwise. -/
def pushedExtensions (value : Bool) (cursor : String) : List Extension :=
  if value then
    [⟨Prec.high, ExtensionCore.defaultEditorView⟩,
     ⟨Prec.high, ExtensionCore.helixEngine cursor⟩,
     ⟨Prec.highest, ExtensionCore.suppressionInterceptor⟩]
  else []

/-- Host-level effects `setEnabled` performs. -/
inductive HostEffect
  | saveData (d : StoredData)
  | updateOptions
  | notice (msg : String)
deriving DecidableEq, Repr

/-- The plugin's mutable fields that `setEnabled` touches. -/
structure PluginState where
  settings : HelixSettings
  extensions : List Extension
deriving DecidableEq, Repr

/-- Translation of `HelixPlugin.setEnabled` (src/main.ts lines 57-97):
sets the enable flag, clears and conditionally repopulates `extensions`,
saves settings, re-renders when `reload`, shows a notice when `print`.
Returns the new state and the ordered list of host effects. -/
def setEnabled (st : PluginState) (value reload print : Bool) :
    PluginState × List HostEffect :=
  let settings : HelixSettings := ⟨value, st.settings.cursorInInsertMode⟩
  let extensions := pushedExtensions value settings.cursorInInsertMode
  let effects : List HostEffect :=
    HostEffect.saveData (saveSettings settings) ::
      ((if reload then [HostEffect.updateOptions] else []) ++
       (if print then
          [HostEffect.notice
            ((if value then "Enabled" else "Disabled") ++ " Helix keybindings")]
        else []))
  (⟨settings, extensions⟩, effects)

/-- Boolean classifier: is the effect a `saveData`? -/
def isSaveDataEffect : HostEffect → Bool
  | HostEffect.saveData _ => true
  | _ => false

/-- Boolean classifier: is the effect the workspace re-render? -/
def isUpdateOptionsEffect : HostEffect → Bool
  | HostEffect.updateOptions => true
  | _ => false

/-- Boolean classifier: is the effect a notice? -/
def isNoticeEffect : HostEffect → Bool
  | HostEffect.notice _ => true
  | _ => false

/-- Spec-side predicate, following the spec's words: a specified modifier
must match exactly; an unspecified modifier is a wildcard. -/
def specifiedMatches (spec : Option Bool) (actual : Bool) : Prop :=
  ∀ b, spec = some b → actual = b

/-- Spec-side predicate, following the spec's words (section 3): a rule
matches an event iff the key identifiers are equal and every specified
modifier matches exactly. -/
def specComboMatches (c : Combo) (e : KeyEvent) : Prop :=
  e.key = c.key ∧ specifiedMatches c.ctrl e.ctrlKey ∧
    specifiedMatches c.meta e.metaKey ∧ specifiedMatches c.alt e.altKey

/-- A view whose scroll DOM carries the Normal/Select marker class. -/
def blockingView : EditorView := ⟨["cm-hx-block-cursor"]⟩

instance (spec : Option Bool) (actual : Bool) :
    Decidable (specifiedMatches spec actual) := by
  unfold specifiedMatches
  cases spec with
  | none => exact isTrue (by intro b h; cases h)
  | some b =>
      cases Bool.decEq actual b with
      | isTrue h => exact isTrue (by intro c hc; cases hc; exact h)
      | isFalse h =>
          exact isFalse (by intro hall; exact h (hall b rfl))

/-- C1: in non-blocking mode the handler returns false; in blocking mode
it returns true iff the key is in the fixed unhandled-key set or the
event matches a configured combo; everything else passes through. -/
theorem helix_keydown_decision (event : KeyEvent) (view : EditorView) :
    (keydown event view).1 =
      (view.scrollDOMClasses.contains "cm-hx-block-cursor" &&
        (UNHANDLED_KEYS.contains event.key || isUnhandledCombo event)) := by
  unfold keydown
  rcases h : view.scrollDOMClasses.contains "cm-hx-block-cursor"
  · simp [h]
  · simp [h]
    split <;> simp_all

/-- C3: when the marker class is absent from the scroll DOM the handler
returns false and performs no side effects. -/
theorem helix_keydown_fail_open (event : KeyEvent) (view : EditorView)
    (h : view.scrollDOMClasses.contains "cm-hx-block-cursor" = false) :
    keydown event view = (false, []) := by
  unfold keydown
  simp only [h]
  rfl

/-- Witness for C3: with an uninitialized (empty) class list, even
Ctrl+Z is not suppressed. -/
theorem helix_keydown_fail_open_witness :
    keydown ⟨"z", true, false, false⟩ ⟨[]⟩ = (false, []) :=
  helix_keydown_fail_open ⟨"z", true, false, false⟩ ⟨[]⟩ (by decide)

/-- C2: `isUnhandledCombo` realizes the spec's matching relation
(specified modifiers match exactly, unspecified ones are wildcards); in
particular, in blocking mode key z with ctrl held is suppressed whatever
alt and meta are, and key z without ctrl is not. -/
theorem helix_combo_matching (event : KeyEvent) :
    (isUnhandledCombo event = true ↔
      ∃ c ∈ UNHANDLED_COMBOS, specComboMatches c event) ∧
    (∀ m a : Bool,
      (keydown ⟨"z", true, m, a⟩ blockingView).1 = true ∧
      (keydown ⟨"z", false, m, a⟩ blockingView).1 = false) := by
  constructor
  · simp [isUnhandledCombo, UNHANDLED_COMBOS, specComboMatches,
      specifiedMatches]
  · intro m a
    cases m <;> cases a <;> exact ⟨by decide, by decide⟩

/-- C4: `setEnabled value` leaves the extension collection holding
exactly the three entries [defaults (high), engine with the current
cursor setting (high), interceptor (highest)] when `value` is true, and
empty when `value` is false; the interceptor is the unique
highest-precedence entry. -/
theorem helix_setEnabled_extensions (st : PluginState)
    (value reload print : Bool) :
    ((setEnabled st value reload print).1.extensions =
      (if value then
        [⟨Prec.high, ExtensionCore.defaultEditorView⟩,
         ⟨Prec.high, ExtensionCore.helixEngine st.settings.cursorInInsertMode⟩,
         ⟨Prec.highest, ExtensionCore.suppressionInterceptor⟩]
       else [])) ∧
    ((setEnabled st true reload print).1.extensions.filter
        (fun e => e.prec == Prec.highest) =
      [⟨Prec.highest, ExtensionCore.suppressionInterceptor⟩]) := by
  constructor
  · cases value <;> simp [setEnabled, pushedExtensions]
  · simp only [setEnabled, pushedExtensions, if_pos]
    rfl

/-- C5: whenever the handler suppresses it performs exactly
[preventDefault, stopPropagation] in that order; when it passes through
it performs no side effect. -/
theorem helix_keydown_side_effects (event : KeyEvent) (view : EditorView) :
    (keydown event view).2 =
      (if (keydown event view).1 then
        [DomEffect.preventDefault, DomEffect.stopPropagation]
       else []) := by
  unfold keydown
  rcases h : view.scrollDOMClasses.contains "cm-hx-block-cursor"
  · simp [h]
  · simp [h]
    split <;> simp

/-- C6: enabling twice in a row leaves the same extension collection
(contents and order) as enabling once. -/
theorem helix_setEnabled_idempotent (st : PluginState)
    (r1 p1 r2 p2 : Bool) :
    (setEnabled (setEnabled st true r1 p1).1 true r2 p2).1.extensions =
      (setEnabled st true r1 p1).1.extensions := by
  simp [setEnabled]

/-- C7: saving a well-formed settings record and loading it back (merge
over defaults, field by field) yields the same record. -/
theorem helix_settings_round_trip (s : HelixSettings) :
    loadSettings (some (saveSettings s)) = s := by
  cases s
  simp [loadSettings, saveSettings]

/-- C8: every `setEnabled` call persists the settings exactly once; it
re-renders the workspace iff `reload`; it shows the
Enabled/Disabled Helix keybindings notice iff `print`. -/
theorem helix_setEnabled_host_effects (st : PluginState)
    (value reload print : Bool) :
    (((setEnabled st value reload print).2.filter isSaveDataEffect).length
        = 1) ∧
    ((setEnabled st value reload print).2.filter isUpdateOptionsEffect =
      (if reload then [HostEffect.updateOptions] else [])) ∧
    ((setEnabled st value reload print).2.filter isNoticeEffect =
      (if print then
        [HostEffect.notice
          (if value then "Enabled Helix keybindings"
           else "Disabled Helix keybindings")]
       else [])) := by
  cases value <;> cases reload <;> cases print <;>
    simp [setEnabled, isSaveDataEffect, isUpdateOptionsEffect,
      isNoticeEffect, List.filter]

/-- C9: `setEnabled` rewrites only the enable flag of the settings; the
cursor-style field is carried over unchanged. -/
theorem helix_setEnabled_settings_frame (st : PluginState)
    (value reload print : Bool) :
    (setEnabled st value reload print).1.settings =
      ⟨value, st.settings.cursorInInsertMode⟩ := by
  simp [setEnabled]

/-- A heap mapping array references to array contents, to model the
in-place mutation of the `extensions` array (`length = 0` then `push`). -/
def Heap : Type := Nat → List Extension

/-- The plugin's fields in the heap model: its settings and the reference
to its `extensions` array. -/
structure PluginRef where
  settings : HelixSettings
  extRef : Nat

/-- `setEnabled` in the heap model: mutates the array the plugin's
reference points at, never reassigning the reference
(src/main.ts lines 58-62). -/
def setEnabledH (heap : Heap) (st : PluginRef) (value : Bool) :
    Heap × PluginRef :=
  let settings : HelixSettings := ⟨value, st.settings.cursorInInsertMode⟩
  let newExts := pushedExtensions value settings.cursorInInsertMode
  (fun n => if n = st.extRef then newExts else heap n, ⟨settings, st.extRef⟩)

/-- `onload` in the heap model (src/main.ts lines 34-45): loads settings,
allocates a fresh array at reference `ρ` for `this.extensions`, calls
`setEnabled` with the loaded flag, then registers that same reference
with the host. Returns the heap, the plugin state, and the reference the
host now holds. -/
def onloadH (heap : Heap) (data : Option StoredData) (ρ : Nat) :
    Heap × PluginRef × Nat :=
  let settings := loadSettings data
  let heap1 : Heap := fun n => if n = ρ then [] else heap n
  let st : PluginRef := ⟨settings, ρ⟩
  let hs := setEnabledH heap1 st settings.enableHelixKeybindings
  (hs.1, hs.2, hs.2.extRef)

/-- Runs a sequence of `setEnabled` calls (their `value` arguments) in
the heap model. -/
def runCallsH (hs : Heap × PluginRef) (calls : List Bool) :
    Heap × PluginRef :=
  calls.foldl (fun hs v => setEnabledH hs.1 hs.2 v) hs

/-- Invariant carried by every `setEnabled` call in the heap model. -/
theorem helix_runCallsH_inv (calls : List Bool) (heap : Heap)
    (st : PluginRef) (ρ : Nat) (href : st.extRef = ρ)
    (hheap : heap ρ = pushedExtensions st.settings.enableHelixKeybindings
      st.settings.cursorInInsertMode) :
    (runCallsH (heap, st) calls).2.extRef = ρ ∧
    (runCallsH (heap, st) calls).1 ρ =
      pushedExtensions
        (runCallsH (heap, st) calls).2.settings.enableHelixKeybindings
        (runCallsH (heap, st) calls).2.settings.cursorInInsertMode := by
  induction calls generalizing heap st with
  | nil => exact ⟨href, hheap⟩
  | cons v rest ih =>
      simpa [runCallsH, List.foldl] using
        ih (setEnabledH heap st v).1 (setEnabledH heap st v).2
          (by simp [setEnabledH, href])
          (by simp [setEnabledH, href])

/-- C10: the reference registered with the host in `onload` is never
reassigned by any later `setEnabled` call, and the array it points at
always holds the current extension set. -/
theorem helix_extensions_reference_stable (heap : Heap)
    (data : Option StoredData) (ρ : Nat) (calls : List Bool) :
    (runCallsH ((onloadH heap data ρ).1, (onloadH heap data ρ).2.1)
        calls).2.extRef = (onloadH heap data ρ).2.2 ∧
    (runCallsH ((onloadH heap data ρ).1, (onloadH heap data ρ).2.1)
        calls).1 ((onloadH heap data ρ).2.2) =
      pushedExtensions
        ((runCallsH ((onloadH heap data ρ).1, (onloadH heap data ρ).2.1)
            calls).2.settings.enableHelixKeybindings)
        ((runCallsH ((onloadH heap data ρ).1, (onloadH heap data ρ).2.1)
            calls).2.settings.cursorInInsertMode) := by
  have hρ : (onloadH heap data ρ).2.2 = ρ := by
    simp [onloadH, setEnabledH]
  rw [hρ]
  exact helix_runCallsH_inv calls _ _ ρ (by simp [onloadH, setEnabledH])
    (by simp [onloadH, setEnabledH])

end Helix
